import Mathlib

/-
Verification of the news-feed aggregation core: identity keys, the article
merge engine, the persisted per-article state store with pruning and
quota degradation, the feed item extraction logic, and the state-mutation
entry points.  Definitions are shallow embeddings of the TypeScript
sources (news.service.ts, rss-parser.service.ts,
article-persistence.service.ts); JavaScript strings are modelled as Lean
strings with ASCII case folding, JS truthiness of a string is the test
for nonemptiness, a JS Date is an optional integer timestamp (none
standing for an Invalid Date), and the JS object holding persisted
states is an insertion-ordered association list with unique keys.
-/

set_option maxHeartbeats 1000000
set_option maxRecDepth 8192

/-! ## JavaScript string primitives -/

/-- Per-character ASCII case folding, as performed by the JS
`toLowerCase` on the ASCII range. -/
def jsToLowerChar (c : Char) : Char :=
  if 65 ≤ c.toNat ∧ c.toNat ≤ 90 then Char.ofNat (c.toNat + 32) else c

/-- Whitespace characters stripped by the JS `trim` (common subset). -/
def jsIsWhitespace (c : Char) : Bool :=
  c = ' ' || c = '\t' || c = '\n' || c = '\r'

/-- JS `trim` on a character list: drop whitespace from both ends. -/
def jsTrimList (l : List Char) : List Char :=
  ((l.dropWhile jsIsWhitespace).reverse.dropWhile jsIsWhitespace).reverse

/-- JS `toLowerCase` on a character list. -/
def jsToLowerList (l : List Char) : List Char := l.map jsToLowerChar

/-- JS `a || b` on strings: the left operand when it is truthy
(nonempty), the right one otherwise. -/
def jsOr (a b : String) : String := if a ≠ "" then a else b

/-! ## Data model -/

/-- A JS `Date` value: a valid timestamp, or `none` for an Invalid Date
(the result of `new Date(s)` on an unparsable string). -/
abbrev JSDate := Option Int

/-- The normalized article record (`NewsArticle` interface). -/
structure NewsArticle where
  id : String
  title : String
  description : String
  imageUrl : String
  sourceName : String
  publishedAt : JSDate
  url : String
  isRead : Bool
  isBookmarked : Bool
  isReadLater : Bool
  isSkipped : Bool
  category : String
deriving DecidableEq

/-- Identity keys are character lists (JS strings). -/
abbrev ArticleKey := List Char

/-- The `ArticleState` record persisted per identity key
(article-persistence.service.ts). -/
structure ArticleState where
  isRead : Bool
  isBookmarked : Bool
  isReadLater : Bool
  isSkipped : Bool
  lastModified : Nat
deriving DecidableEq

/-- A `Partial<ArticleState>` argument: each flag optionally present. -/
structure ArticleStatePatch where
  isRead : Option Bool
  isBookmarked : Option Bool
  isReadLater : Option Bool
  isSkipped : Option Bool
deriving DecidableEq

/-- The `ArticleStatesMap` JS object: an insertion-ordered association
list keyed by article identity key. -/
abbrev ArticleStatesMap := List (ArticleKey × ArticleState)

/-! ## NewsService.getArticleUniqueKey (news.service.ts lines 476-482)

The source computes `article.url.toLowerCase().trim()` when the url is
truthy, and `(sourceName + "-" + title).toLowerCase().trim()` otherwise. -/

def getArticleUniqueKey (a : NewsArticle) : ArticleKey :=
  if a.url ≠ "" then jsTrimList (jsToLowerList a.url.data)
  else jsTrimList (jsToLowerList (a.sourceName ++ "-" ++ a.title).data)

/-- Modelled from the spec: the identity derivation of section 4.3,
`lowercase(trim(url))` for a nonempty url, otherwise
`lowercase(trim(sourceName + "-" + title))`.  Used only to compare the
source key function against the specified one. -/
def articleKeySpec (a : NewsArticle) : ArticleKey :=
  if a.url ≠ "" then jsToLowerList (jsTrimList a.url.data)
  else jsToLowerList (jsTrimList (a.sourceName ++ "-" ++ a.title).data)

/-! ## JS object primitives over the association map -/

/-- Read `states[key]`: the entry for the key, if present. -/
def objGet (m : ArticleStatesMap) (k : ArticleKey) : Option ArticleState :=
  (m.find? (fun p => p.1 = k)).map (fun p => p.2)

/-- Write `states[key] = v`: update in place when the key is present
(keeping its position, as a JS object does), else append. -/
def objSet (m : ArticleStatesMap) (k : ArticleKey) (v : ArticleState) : ArticleStatesMap :=
  if m.any (fun p => p.1 = k) then
    m.map (fun p => if p.1 = k then (k, v) else p)
  else m ++ [(k, v)]

/-! ## ArticlePersistenceService (article-persistence.service.ts)

The backing `localStorage` medium is modelled as the stored map plus a
schedule of outcomes for upcoming `setItem` calls: each `false` entry
makes the next write throw `QuotaExceededError`, each `true` entry (and
an exhausted schedule) makes it succeed. -/

def MAX_STORAGE_ITEMS : Nat := 1000

structure Storage where
  stored : ArticleStatesMap
  pending : List Bool
deriving DecidableEq

/-- Read `localStorage` (`getAllStates`): the persisted map. -/
def getAllStates (st : Storage) : ArticleStatesMap := st.stored

/-- Insert an entry into a list sorted by descending `lastModified`,
modelling the JS comparator `(a, b) => b.lastModified - a.lastModified`. -/
def insertByLastModifiedDesc (p : ArticleKey × ArticleState) :
    ArticleStatesMap → ArticleStatesMap
  | [] => [p]
  | q :: qs =>
    if q.2.lastModified < p.2.lastModified then p :: q :: qs
    else q :: insertByLastModifiedDesc p qs

/-- Sort entries by descending `lastModified` (the `sort` call in
`pruneOldStates` and `clearOldStates`). -/
def sortByLastModifiedDesc : ArticleStatesMap → ArticleStatesMap
  | [] => []
  | p :: ps => insertByLastModifiedDesc p (sortByLastModifiedDesc ps)

/-- Translation of `pruneOldStates`: when the map holds more than
`MAX_STORAGE_ITEMS` entries, keep (in their original positions) only
the `MAX_STORAGE_ITEMS` entries of most recent `lastModified`. -/
def pruneOldStates (states : ArticleStatesMap) : ArticleStatesMap :=
  if MAX_STORAGE_ITEMS < states.length then
    let pruned := (sortByLastModifiedDesc states).take MAX_STORAGE_ITEMS
    states.filter (fun p => pruned.any (fun q => q.1 = p.1))
  else states

/-- Translation of `saveAllStates` together with the inlined
`clearOldStates` it calls on a quota error, structured over the
schedule of `setItem` outcomes.  A successful `setItem` persists the
value; a `QuotaExceededError` leaves the persisted map (`data`)
unchanged, whereupon `clearOldStates` re-reads it, keeps its most
recent `MAX_STORAGE_ITEMS / 2` entries, and tries again, recursing
while the medium keeps rejecting.  The second component counts the
`setItem` attempts made. -/
def saveAllStatesGo (data : ArticleStatesMap) :
    List Bool → ArticleStatesMap → Storage × Nat
  | [], states => (⟨states, []⟩, 1)
  | true :: rest, states => (⟨states, rest⟩, 1)
  | false :: rest, states =>
    let recent := (sortByLastModifiedDesc data).take (MAX_STORAGE_ITEMS / 2)
    let r2 := saveAllStatesGo data rest recent
    (r2.1, r2.2 + 1)

def saveAllStates (st : Storage) (states : ArticleStatesMap) : Storage × Nat :=
  saveAllStatesGo st.stored st.pending states

/-- Translation of `saveArticleState`: merge the patch into the entry
for the key (creating it with all-false defaults), stamp
`lastModified := now`, prune, and persist. -/
def saveArticleState (st : Storage) (articleId : ArticleKey)
    (patch : ArticleStatePatch) (now : Nat) : Storage × Nat :=
  let states := getAllStates st
  let existingState := (objGet states articleId).getD ⟨false, false, false, false, now⟩
  let newState : ArticleState :=
    ⟨patch.isRead.getD existingState.isRead,
     patch.isBookmarked.getD existingState.isBookmarked,
     patch.isReadLater.getD existingState.isReadLater,
     patch.isSkipped.getD existingState.isSkipped, now⟩
  let states2 := objSet states articleId newState
  saveAllStates st (pruneOldStates states2)

/-- Translation of `getArticleState`: `states[articleId] || null`. -/
def getArticleState (st : Storage) (articleId : ArticleKey) : Option ArticleState :=
  objGet (getAllStates st) articleId

/-! ## NewsService.mergeArticles (news.service.ts lines 431-470) -/

/-- Lookup in the `existingMap` built by the merge: the JS `Map` is
filled by a forEach, so a later same-key article overwrites an earlier
one, hence the lookup finds the last matching existing article. -/
def existingMapGet (existingArticles : List NewsArticle) (k : ArticleKey) :
    Option NewsArticle :=
  existingArticles.reverse.find? (fun a => getArticleUniqueKey a = k)

/-- The body of the forEach over `newArticles`: a new article whose key
matches an existing one is dropped; otherwise it is added, with
persisted state restored onto it when the store has its key. -/
def mergeProcessNew (persistence : Storage) (existingArticles : List NewsArticle)
    (newArticle : NewsArticle) : Option NewsArticle :=
  let key := getArticleUniqueKey newArticle
  match existingMapGet existingArticles key with
  | some _ => none
  | none =>
    match getArticleState persistence key with
    | some persistedState =>
      some { newArticle with
              isRead := persistedState.isRead,
              isBookmarked := persistedState.isBookmarked,
              isReadLater := persistedState.isReadLater,
              isSkipped := persistedState.isSkipped }
    | none => some newArticle

/-- Translation of `mergeArticles`: the surviving new articles first,
then every existing article, unchanged. -/
def mergeArticles (persistence : Storage) (existingArticles newArticles : List NewsArticle) :
    List NewsArticle :=
  (newArticles.filterMap (mergeProcessNew persistence existingArticles)) ++ existingArticles

/-! ## NewsService state-mutation entry points (news.service.ts lines 236-354)

Each takes the in-memory article list and the persistence storage and
returns both updated; a missing article id is an early return. -/

def toggleBookmark (articles : List NewsArticle) (persistence : Storage)
    (now : Nat) (articleId : String) : List NewsArticle × Storage :=
  match articles.find? (fun a => a.id = articleId) with
  | none => (articles, persistence)
  | some _ =>
    let updatedArticles := articles.map (fun a =>
      if a.id = articleId then { a with isBookmarked := !a.isBookmarked } else a)
    match updatedArticles.find? (fun a => a.id = articleId) with
    | none => (updatedArticles, persistence)
    | some updatedArticle =>
      let persistenceKey := getArticleUniqueKey updatedArticle
      let newState : ArticleStatePatch :=
        ⟨some updatedArticle.isRead, some updatedArticle.isBookmarked,
         some updatedArticle.isReadLater, some updatedArticle.isSkipped⟩
      (updatedArticles, (saveArticleState persistence persistenceKey newState now).1)

def toggleReadLater (articles : List NewsArticle) (persistence : Storage)
    (now : Nat) (articleId : String) : List NewsArticle × Storage :=
  match articles.find? (fun a => a.id = articleId) with
  | none => (articles, persistence)
  | some _ =>
    let updatedArticles := articles.map (fun a =>
      if a.id = articleId then { a with isReadLater := !a.isReadLater } else a)
    match updatedArticles.find? (fun a => a.id = articleId) with
    | none => (updatedArticles, persistence)
    | some updatedArticle =>
      let persistenceKey := getArticleUniqueKey updatedArticle
      let newState : ArticleStatePatch := ⟨none, none, some updatedArticle.isReadLater, none⟩
      (updatedArticles, (saveArticleState persistence persistenceKey newState now).1)

def markAsRead (articles : List NewsArticle) (persistence : Storage)
    (now : Nat) (articleId : String) : List NewsArticle × Storage :=
  match articles.find? (fun a => a.id = articleId) with
  | none => (articles, persistence)
  | some _ =>
    let updatedArticles := articles.map (fun a =>
      if a.id = articleId then { a with isRead := true } else a)
    match updatedArticles.find? (fun a => a.id = articleId) with
    | none => (updatedArticles, persistence)
    | some updatedArticle =>
      let persistenceKey := getArticleUniqueKey updatedArticle
      let newState : ArticleStatePatch := ⟨some true, none, none, none⟩
      (updatedArticles, (saveArticleState persistence persistenceKey newState now).1)

def toggleReadStatus (articles : List NewsArticle) (persistence : Storage)
    (now : Nat) (articleId : String) : List NewsArticle × Storage :=
  match articles.find? (fun a => a.id = articleId) with
  | none => (articles, persistence)
  | some _ =>
    let updatedArticles := articles.map (fun a =>
      if a.id = articleId then { a with isRead := !a.isRead } else a)
    match updatedArticles.find? (fun a => a.id = articleId) with
    | none => (updatedArticles, persistence)
    | some updatedArticle =>
      let persistenceKey := getArticleUniqueKey updatedArticle
      let newState : ArticleStatePatch := ⟨some updatedArticle.isRead, none, none, none⟩
      (updatedArticles, (saveArticleState persistence persistenceKey newState now).1)

def skipArticle (articles : List NewsArticle) (persistence : Storage)
    (now : Nat) (articleId : String) : List NewsArticle × Storage :=
  match articles.find? (fun a => a.id = articleId) with
  | none => (articles, persistence)
  | some _ =>
    let updatedArticles := articles.map (fun a =>
      if a.id = articleId then { a with isSkipped := true } else a)
    match updatedArticles.find? (fun a => a.id = articleId) with
    | none => (updatedArticles, persistence)
    | some updatedArticle =>
      let persistenceKey := getArticleUniqueKey updatedArticle
      let newState : ArticleStatePatch := ⟨none, none, none, some true⟩
      (updatedArticles, (saveArticleState persistence persistenceKey newState now).1)

def undoSkip (articles : List NewsArticle) (persistence : Storage)
    (now : Nat) (articleId : String) : List NewsArticle × Storage :=
  match articles.find? (fun a => a.id = articleId) with
  | none => (articles, persistence)
  | some _ =>
    let updatedArticles := articles.map (fun a =>
      if a.id = articleId then { a with isSkipped := false } else a)
    match updatedArticles.find? (fun a => a.id = articleId) with
    | none => (updatedArticles, persistence)
    | some updatedArticle =>
      let persistenceKey := getArticleUniqueKey updatedArticle
      let newState : ArticleStatePatch := ⟨none, none, none, some false⟩
      (updatedArticles, (saveArticleState persistence persistenceKey newState now).1)

/-! ## NewsService.loadFromRSSFeeds fan-in (news.service.ts lines 375-422) -/

inductive SortOrder where
  | desc
  | asc
deriving DecidableEq

/-- Timestamp of a JS date for the sort comparator.  The claims never
exercise this on an Invalid Date; an Invalid Date (whose JS `getTime`
is NaN) is mapped to 0. -/
def getTime : JSDate → Int
  | some t => t
  | none => 0

/-- Insertion step of the stable sort used to model `Array.sort`. -/
def insertOrdered (before : NewsArticle → NewsArticle → Bool) (a : NewsArticle) :
    List NewsArticle → List NewsArticle
  | [] => [a]
  | b :: l => if before a b then a :: b :: l else b :: insertOrdered before a l

/-- Translation of `sortArticlesLocally`: sort by publish timestamp,
descending or ascending. -/
def sortArticlesLocally (articles : List NewsArticle) (order : SortOrder) :
    List NewsArticle :=
  let before := fun a b =>
    match order with
    | SortOrder.desc => getTime b.publishedAt < getTime a.publishedAt
    | SortOrder.asc => getTime a.publishedAt < getTime b.publishedAt
  articles.foldr (insertOrdered before) []

/-- The per-source result of `fetchAndParseRSS`. -/
structure RSSParseResult where
  articles : List NewsArticle
  error : Option String
deriving DecidableEq

/-- Truthiness of the JS `result.error` field. -/
def errTruthy : Option String → Bool
  | none => false
  | some s => s ≠ ""

/-- The service fields written by the fan-in handler. -/
structure LoadOutcome where
  allArticles : List NewsArticle
  error : Option String
  isLoading : Bool
deriving DecidableEq

/-- JS `Array.join`. -/
def joinStrings (sep : String) : List String → String
  | [] => ""
  | [s] => s
  | s :: rest => s ++ sep ++ joinStrings sep rest

/-- Translation of the `forkJoin` next-handler of `loadFromRSSFeeds`:
collect the articles of every non-errored result, collect error
messages for the errored ones; when no articles at all were fetched,
set an error message and replace the article set with the empty list;
otherwise merge, sort, and clear the error. -/
def loadFromRSSFeedsNext (prevArticles : List NewsArticle) (persistence : Storage)
    (sortOrder : SortOrder) (results : List (String × RSSParseResult)) : LoadOutcome :=
  let allFetchedArticles :=
    (results.filter (fun r => !errTruthy r.2.error)).flatMap (fun r => r.2.articles)
  let errors :=
    (results.filter (fun r => errTruthy r.2.error)).map
      (fun r => r.1 ++ ": " ++ r.2.error.getD "")
  if allFetchedArticles.length = 0 then
    let msg :=
      if 0 < errors.length then "RSS feed errors: " ++ joinStrings "; " errors
      else "Failed to load articles from RSS feeds"
    ⟨[], some msg, false⟩
  else
    let merged := mergeArticles persistence prevArticles allFetchedArticles
    ⟨sortArticlesLocally merged sortOrder, none, false⟩

/-! ## RssParserService (rss-parser.service.ts)

The DOM layer is modelled at the granularity of the DOM calls the
parser makes: an item or entry is the record of text lookups the code
performs on it (each an empty string when the element is missing, as
`getTextContent` returns), and the browser services the code delegates
to (date parsing, HTML entity decoding, the img-src regex match) are
fields of an environment record. -/

structure FeedEnv where
  now : Int
  parseDate : String → JSDate
  decodeEntities : String → String
  imgSrcMatch : String → Option String

/-- An RSS 2.0 `item` element, seen through the text and attribute
lookups the parser performs on it. -/
structure RSSItem where
  title : String
  description : String
  contentEncoded : String
  summary : String
  link : String
  pubDate : String
  dcDate : String
  mediaContentUrl : String
  mediaThumbnailUrl : String
  enclosureImageUrl : String
deriving DecidableEq

/-- An Atom `entry` element, seen through the lookups the parser
performs on it.  The two link fields are `none` when the respective
`querySelector` finds no element, and carry the `href` attribute (with
a missing attribute already defaulted to the empty string) otherwise. -/
structure AtomEntry where
  title : String
  summary : String
  content : String
  linkAlternateHref : Option String
  linkFirstHref : Option String
  published : String
  updated : String
  linkImageHref : String
deriving DecidableEq

/-- Suffix of the character list after the first `>`, if any: the tail
of a tag match of the regex `<[^>]*>`. -/
def dropTag : List Char → Option (List Char)
  | [] => none
  | c :: rest => if c = '>' then some rest else dropTag rest

/-- Global replacement of the regex `<[^>]*>` by nothing: the
tag-stripping pass of `cleanText`, written with explicit fuel so that
it reduces structurally.  Every step consumes at least one character,
so any fuel of at least the length of the input performs the full
scan; `stripTags` below supplies exactly that. -/
def stripTagsFuel : Nat → List Char → List Char
  | 0, l => l
  | _ + 1, [] => []
  | fuel + 1, c :: rest =>
    if c = '<' then
      match dropTag rest with
      | some rest2 => stripTagsFuel fuel rest2
      | none => c :: stripTagsFuel fuel rest
    else c :: stripTagsFuel fuel rest

def stripTags (l : List Char) : List Char := stripTagsFuel l.length l

/-- Translation of `cleanText`: strip tags, decode HTML entities via
the browser, trim. -/
def cleanText (env : FeedEnv) (text : String) : String :=
  let withoutTags := String.mk (stripTags text.data)
  String.mk (jsTrimList (env.decodeEntities withoutTags).data)

/-- Translation of `extractImageUrl`: media content url, then media
thumbnail url, then an image enclosure url, then the first img src of
the description or encoded content. -/
def extractImageUrl (env : FeedEnv) (item : RSSItem) : String :=
  if item.mediaContentUrl ≠ "" then item.mediaContentUrl
  else if item.mediaThumbnailUrl ≠ "" then item.mediaThumbnailUrl
  else if item.enclosureImageUrl ≠ "" then item.enclosureImageUrl
  else
    let description := jsOr item.description item.contentEncoded
    if description ≠ "" then
      match env.imgSrcMatch description with
      | some u => u
      | none => ""
    else ""

/-- Translation of `extractAtomImageUrl`. -/
def extractAtomImageUrl (env : FeedEnv) (entry : AtomEntry) : String :=
  if entry.linkImageHref ≠ "" then entry.linkImageHref
  else
    let content := jsOr entry.content entry.summary
    if content ≠ "" then
      match env.imgSrcMatch content with
      | some u => u
      | none => ""
    else ""

/-- The body of the forEach over RSS items (lines 71-102 of the
parser): build an article when both the raw title and the link are
truthy, else skip the item. -/
def parseRSSItem (env : FeedEnv) (sourceName : String) (index : Nat)
    (item : RSSItem) : Option NewsArticle :=
  let title := item.title
  let description := jsOr (jsOr item.description item.contentEncoded) item.summary
  let link := item.link
  let pubDateStr := jsOr item.pubDate item.dcDate
  let imageUrl := extractImageUrl env item
  if title ≠ "" ∧ link ≠ "" then
    some
      { id := sourceName ++ "-" ++ toString env.now ++ "-" ++ toString index,
        title := cleanText env title,
        description := jsOr (cleanText env description) "",
        url := link,
        sourceName := sourceName,
        publishedAt := if pubDateStr ≠ "" then env.parseDate pubDateStr else some env.now,
        imageUrl := jsOr imageUrl "",
        isRead := false,
        isBookmarked := false,
        isReadLater := false,
        isSkipped := false,
        category := "News" }
  else none

/-- The link resolution of an Atom entry: the alternate link when the
selector finds one, else the first link, else the empty string. -/
def atomEntryLink (entry : AtomEntry) : String :=
  match entry.linkAlternateHref with
  | some h => h
  | none =>
    match entry.linkFirstHref with
    | some h => h
    | none => ""

/-- The body of the forEach over Atom entries (lines 110-142 of the
parser). -/
def parseAtomEntry (env : FeedEnv) (sourceName : String) (index : Nat)
    (entry : AtomEntry) : Option NewsArticle :=
  let title := entry.title
  let summary := jsOr entry.summary entry.content
  let link := atomEntryLink entry
  let publishedStr := jsOr entry.published entry.updated
  let imageUrl := extractAtomImageUrl env entry
  if title ≠ "" ∧ link ≠ "" then
    some
      { id := sourceName ++ "-" ++ toString env.now ++ "-" ++ toString index,
        title := cleanText env title,
        description := jsOr (cleanText env summary) "",
        url := link,
        sourceName := sourceName,
        publishedAt := if publishedStr ≠ "" then env.parseDate publishedStr else some env.now,
        imageUrl := jsOr imageUrl "",
        isRead := false,
        isBookmarked := false,
        isReadLater := false,
        isSkipped := false,
        category := "News" }
  else none

/-- The indexed forEach over RSS items: the index advances on every
item, included or skipped. -/
def parseRSSItemsFrom (env : FeedEnv) (sourceName : String) (index : Nat) :
    List RSSItem → List NewsArticle
  | [] => []
  | item :: rest =>
    match parseRSSItem env sourceName index item with
    | some a => a :: parseRSSItemsFrom env sourceName (index + 1) rest
    | none => parseRSSItemsFrom env sourceName (index + 1) rest

def parseRSSItems (env : FeedEnv) (sourceName : String) (items : List RSSItem) :
    List NewsArticle :=
  parseRSSItemsFrom env sourceName 0 items

/-- The indexed forEach over Atom entries. -/
def parseAtomEntriesFrom (env : FeedEnv) (sourceName : String) (index : Nat) :
    List AtomEntry → List NewsArticle
  | [] => []
  | entry :: rest =>
    match parseAtomEntry env sourceName index entry with
    | some a => a :: parseAtomEntriesFrom env sourceName (index + 1) rest
    | none => parseAtomEntriesFrom env sourceName (index + 1) rest

def parseAtomEntries (env : FeedEnv) (sourceName : String) (entries : List AtomEntry) :
    List NewsArticle :=
  parseAtomEntriesFrom env sourceName 0 entries

/-- A feed document after DOM parsing: whether the XML was malformed,
and the RSS item and Atom entry node lists. -/
structure FeedDoc where
  parserError : Bool
  rssItems : List RSSItem
  atomEntries : List AtomEntry

/-- Translation of `parseRSSFeed` at the document level: malformed XML
throws, RSS items win over Atom entries, neither present is an empty
(valid) feed. -/
def parseRSSFeed (env : FeedEnv) (doc : FeedDoc) (sourceName : String) :
    Except String (List NewsArticle) :=
  if doc.parserError then Except.error "Invalid XML format"
  else if doc.rssItems.length ≠ 0 then Except.ok (parseRSSItems env sourceName doc.rssItems)
  else if doc.atomEntries.length ≠ 0 then
    Except.ok (parseAtomEntries env sourceName doc.atomEntries)
  else Except.ok []

/-- An article with the generator-assigned ephemeral id blanked, used
to compare parse outputs across differing item indices. -/
def stripId (a : NewsArticle) : NewsArticle := { a with id := "" }

/-- The inclusion gate of the RSS item loop, as a predicate. -/
def rssItemIncluded (item : RSSItem) : Bool := item.title ≠ "" && item.link ≠ ""

/-- The inclusion gate of the Atom entry loop, as a predicate. -/
def atomEntryIncluded (entry : AtomEntry) : Bool :=
  entry.title ≠ "" && atomEntryLink entry ≠ ""

/-! ## Concrete values used by witnesses and counterexamples -/

/-- A storage with nothing persisted and a medium that accepts every
write. -/
def emptyStorage : Storage := ⟨[], []⟩

/-- An existing article carrying user-set state. -/
def exArticle : NewsArticle :=
  ⟨"ex-1", "Old title", "old description", "", "Src", some 10,
   "https://example.com/a", true, true, true, false, "News"⟩

/-- A freshly parsed article with the same identity (its url lowercases
and trims to the url of `exArticle`) and all-false flags. -/
def inArticle : NewsArticle :=
  ⟨"in-7", "New title", "new description", "", "Src", some 20,
   "HTTPS://example.com/a  ", false, false, false, false, "News"⟩

/-- A second incoming article with the same identity key as
`inArticle` but a different id and title. -/
def inArticle2 : NewsArticle :=
  ⟨"in-8", "Other title", "other description", "", "Src", some 30,
   "https://example.com/a", false, false, false, false, "News"⟩

/-- A patch setting the read flag, as `markAsRead` persists it. -/
def patchTrue : ArticleStatePatch := ⟨some true, none, none, none⟩

/-- Sequential `saveArticleState` calls: fold the writes (key, patch,
timestamp) over the storage. -/
def runSaves (st : Storage) (ws : List (ArticleKey × ArticleStatePatch × Nat)) : Storage :=
  ws.foldl (fun s w => (saveArticleState s w.1 w.2.1 w.2.2).1) st

/-- The entry a fresh-key `saveArticleState` write creates: the patch
merged into the all-false default, stamped with the write time. -/
def mkSavedEntry (w : ArticleKey × ArticleStatePatch × Nat) : ArticleKey × ArticleState :=
  (w.1,
   ⟨w.2.1.isRead.getD false, w.2.1.isBookmarked.getD false,
    w.2.1.isReadLater.getD false, w.2.1.isSkipped.getD false, w.2.2⟩)

/-- Distinct keys for the pruning witness: the key of index `n` is a
run of `n + 1` letters. -/
def natKeyList (n : Nat) : ArticleKey := List.replicate (n + 1) 'a'

/-- The write sequence of the pruning witness: `MAX_STORAGE_ITEMS + 1`
writes with pairwise distinct keys and strictly increasing times. -/
def pruningWitnessWrites : List (ArticleKey × ArticleStatePatch × Nat) :=
  (List.range (MAX_STORAGE_ITEMS + 1)).map (fun n => (natKeyList n, (patchTrue, n)))

/-- An environment whose date parsing rejects every string (no date
text in the samples parses), decodes entities as the identity, and
finds no img tag. -/
def envFixed : FeedEnv := ⟨5, fun _ => none, fun s => s, fun _ => none⟩

/-- An RSS item with title and link but no date at all. -/
def itemNoDate : RSSItem := ⟨"T", "", "", "", "http://x/1", "", "", "", "", ""⟩

/-- An RSS item whose date text does not parse as a date. -/
def itemBadDate : RSSItem := ⟨"T", "", "", "", "http://x/1", "notadate", "", "", "", ""⟩

/-- An RSS item possessing a title but no resolvable link. -/
def itemTitleOnly : RSSItem := ⟨"T", "", "", "", "", "", "", "", "", ""⟩

/-- An RSS item with both a title and a link, a sibling of
`itemTitleOnly` in the skip witness. -/
def itemGood : RSSItem := ⟨"G", "", "", "", "http://x/2", "", "", "", "", ""⟩

/-- The article `parseRSSItem envFixed "S" 0 itemNoDate` produces. -/
def parsedNoDate : NewsArticle :=
  ⟨"S-5-0", "T", "", "", "S", some 5, "http://x/1", false, false, false, false, "News"⟩

/-- A fetch result of a failed source. -/
def failedResult : String × RSSParseResult := ("BBC", ⟨[], some "network error"⟩)

/-! ## Lemmas about the merge engine -/

theorem existingMapGet_eq_none_iff (ex : List NewsArticle) (k : ArticleKey) :
    existingMapGet ex k = none ↔ ∀ a ∈ ex, getArticleUniqueKey a ≠ k := by
  simp [existingMapGet, List.find?_eq_none]

theorem existingMapGet_some (ex : List NewsArticle) (k : ArticleKey) (x : NewsArticle)
    (h : existingMapGet ex k = some x) : x ∈ ex ∧ getArticleUniqueKey x = k := by
  unfold existingMapGet at h
  have hmem := List.mem_of_find?_eq_some h
  have hp := List.find?_some h
  exact ⟨List.mem_reverse.mp hmem, by simpa using hp⟩

theorem mergeProcessNew_some (persistence : Storage) (ex : List NewsArticle)
    (na o : NewsArticle) (h : mergeProcessNew persistence ex na = some o) :
    getArticleUniqueKey o = getArticleUniqueKey na ∧
      existingMapGet ex (getArticleUniqueKey na) = none := by
  simp only [mergeProcessNew] at h
  cases hm : existingMapGet ex (getArticleUniqueKey na) with
  | some x => rw [hm] at h; cases h
  | none =>
    rw [hm] at h
    refine ⟨?_, rfl⟩
    cases hs : getArticleState persistence (getArticleUniqueKey na) with
    | some ps => rw [hs] at h; cases h; rfl
    | none => rw [hs] at h; cases h; rfl

theorem mergeProcessNew_isSome (persistence : Storage) (ex : List NewsArticle)
    (na : NewsArticle) (h : existingMapGet ex (getArticleUniqueKey na) = none) :
    ∃ o, mergeProcessNew persistence ex na = some o := by
  simp only [mergeProcessNew]
  rw [h]
  cases hs : getArticleState persistence (getArticleUniqueKey na) with
  | some ps => exact ⟨_, rfl⟩
  | none => exact ⟨_, rfl⟩

theorem filter_key_eq_singleton (l : List NewsArticle)
    (hnd : (l.map getArticleUniqueKey).Nodup) (e : NewsArticle) (he : e ∈ l) :
    l.filter (fun o => getArticleUniqueKey o = getArticleUniqueKey e) = [e] := by
  induction l with
  | nil => cases he
  | cons a t ih =>
    rw [List.map_cons, List.nodup_cons] at hnd
    obtain ⟨hka, hndt⟩ := hnd
    rcases List.mem_cons.mp he with he | he
    · subst he
      rw [List.filter_cons_of_pos (by simp)]
      have ht : t.filter (fun o => getArticleUniqueKey o = getArticleUniqueKey e) = [] := by
        rw [List.filter_eq_nil_iff]
        intro x hx
        simp only [decide_eq_true_eq]
        intro hxa
        exact hka (List.mem_map.mpr ⟨x, hx, hxa⟩)
      rw [ht]
    · have hne : ¬ (getArticleUniqueKey a = getArticleUniqueKey e) := by
        intro hae
        exact hka (List.mem_map.mpr ⟨e, he, hae.symm⟩)
      rw [List.filter_cons_of_neg (by simpa using hne)]
      exact ih hndt he

/-- C1: for every pair of article lists and every article present in
both under the same identity key, every merge output entry for that
key carries the four user-state flags of the existing article,
regardless of the flags on the incoming (freshly parsed) version:
user-set state on a known article is never overwritten by a re-fetch. -/
theorem merge_preserves_user_state (persistence : Storage)
    (existingArticles newArticles : List NewsArticle)
    (hnd : (existingArticles.map getArticleUniqueKey).Nodup)
    (e : NewsArticle) (he : e ∈ existingArticles)
    (i : NewsArticle) (hi : i ∈ newArticles)
    (hk : getArticleUniqueKey i = getArticleUniqueKey e) :
    e ∈ mergeArticles persistence existingArticles newArticles ∧
      ∀ o ∈ mergeArticles persistence existingArticles newArticles,
        getArticleUniqueKey o = getArticleUniqueKey e →
          o.isRead = e.isRead ∧ o.isBookmarked = e.isBookmarked ∧
            o.isReadLater = e.isReadLater ∧ o.isSkipped = e.isSkipped := by
  constructor
  · exact List.mem_append.mpr (Or.inr he)
  · intro o ho hko
    rcases List.mem_append.mp ho with hadd | hex
    · rcases List.mem_filterMap.mp hadd with ⟨na, hna, hsome⟩
      obtain ⟨hkey, hnone⟩ := mergeProcessNew_some _ _ _ _ hsome
      rw [existingMapGet_eq_none_iff] at hnone
      exact absurd (by rw [← hko, hkey]) (hnone e he)
    · have hoe : o = e := List.inj_on_of_nodup_map hnd hex he hko
      subst hoe
      exact ⟨rfl, rfl, rfl, rfl⟩

/-- Witness for C1 at a concrete pair: the existing bookmarked article
and a freshly fetched all-false copy under the same key. -/
theorem merge_preserves_user_state_witness :
    exArticle ∈ mergeArticles emptyStorage [exArticle] [inArticle] ∧
      ∀ o ∈ mergeArticles emptyStorage [exArticle] [inArticle],
        getArticleUniqueKey o = getArticleUniqueKey exArticle →
          o.isRead = exArticle.isRead ∧ o.isBookmarked = exArticle.isBookmarked ∧
            o.isReadLater = exArticle.isReadLater ∧ o.isSkipped = exArticle.isSkipped :=
  merge_preserves_user_state emptyStorage [exArticle] [inArticle] (by decide)
    exArticle (by decide) inArticle (by decide) (by decide)

/-- C2 counterexample: with an existing and an incoming article under
the same identity key but different titles and descriptions, the merge
output is exactly the existing article — the new descriptive fields
are discarded, not kept. -/
theorem merge_metadata_refresh_counterexample :
    getArticleUniqueKey inArticle = getArticleUniqueKey exArticle ∧
      mergeArticles emptyStorage [exArticle] [inArticle] = [exArticle] ∧
      exArticle.title ≠ inArticle.title ∧
      exArticle.description ≠ inArticle.description := by
  decide

/-- C2 (amended): for every merge invocation and every incoming
article whose identity key matches an existing article, the output
holds exactly one entry for that key, namely the existing article
unchanged — its descriptive fields (title, description, imageUrl) are
retained and the incoming duplicate is discarded without being added. -/
theorem merge_existing_entry_retained (persistence : Storage)
    (existingArticles newArticles : List NewsArticle)
    (hnd : (existingArticles.map getArticleUniqueKey).Nodup)
    (e : NewsArticle) (he : e ∈ existingArticles)
    (i : NewsArticle) (hi : i ∈ newArticles)
    (hk : getArticleUniqueKey i = getArticleUniqueKey e) :
    (mergeArticles persistence existingArticles newArticles).filter
        (fun o => getArticleUniqueKey o = getArticleUniqueKey e) = [e] := by
  unfold mergeArticles
  rw [List.filter_append]
  have h1 : (newArticles.filterMap (mergeProcessNew persistence existingArticles)).filter
      (fun o => getArticleUniqueKey o = getArticleUniqueKey e) = [] := by
    rw [List.filter_eq_nil_iff]
    intro o ho
    rcases List.mem_filterMap.mp ho with ⟨na, hna, hsome⟩
    obtain ⟨hkey, hnone⟩ := mergeProcessNew_some _ _ _ _ hsome
    rw [existingMapGet_eq_none_iff] at hnone
    simp only [decide_eq_true_eq]
    intro hko
    exact hnone e he (by rw [← hko, hkey])
  rw [h1, List.nil_append]
  exact filter_key_eq_singleton _ hnd e he

/-- Witness for the amended C2 at the concrete pair of articles. -/
theorem merge_existing_entry_retained_witness :
    (mergeArticles emptyStorage [exArticle] [inArticle]).filter
        (fun o => getArticleUniqueKey o = getArticleUniqueKey exArticle) = [exArticle] :=
  merge_existing_entry_retained emptyStorage [exArticle] [inArticle] (by decide)
    exArticle (by decide) inArticle (by decide) (by decide)

/-- Membership of a key in the merge output: exactly the keys of the
union of the existing and the incoming articles. -/
theorem mem_mergeArticles_keys (persistence : Storage)
    (ex inc : List NewsArticle) (k : ArticleKey) :
    k ∈ (mergeArticles persistence ex inc).map getArticleUniqueKey ↔
      k ∈ ex.map getArticleUniqueKey ∨ k ∈ inc.map getArticleUniqueKey := by
  unfold mergeArticles
  rw [List.map_append, List.mem_append]
  constructor
  · rintro (hadd | hex)
    · rcases List.mem_map.mp hadd with ⟨o, ho, hko⟩
      rcases List.mem_filterMap.mp ho with ⟨na, hna, hsome⟩
      obtain ⟨hkey, _⟩ := mergeProcessNew_some _ _ _ _ hsome
      exact Or.inr (List.mem_map.mpr ⟨na, hna, by rw [← hkey, hko]⟩)
    · exact Or.inl hex
  · rintro (hex | hinc)
    · exact Or.inr hex
    · rcases List.mem_map.mp hinc with ⟨na, hna, hkna⟩
      cases hm : existingMapGet ex (getArticleUniqueKey na) with
      | none =>
        obtain ⟨o, ho⟩ := mergeProcessNew_isSome persistence ex na hm
        have hkey := (mergeProcessNew_some _ _ _ _ ho).1
        exact Or.inl (List.mem_map.mpr
          ⟨o, List.mem_filterMap.mpr ⟨na, hna, ho⟩, by rw [hkey, hkna]⟩)
      | some x =>
        obtain ⟨hx, hkx⟩ := existingMapGet_some _ _ _ hm
        exact Or.inr (List.mem_map.mpr ⟨x, hx, by rw [hkx, hkna]⟩)

/-- Keys of the surviving new articles form a sublist of the incoming
keys. -/
theorem merge_toAdd_keys_sublist (persistence : Storage) (ex : List NewsArticle)
    (inc : List NewsArticle) :
    ((inc.filterMap (mergeProcessNew persistence ex)).map getArticleUniqueKey).Sublist
      (inc.map getArticleUniqueKey) := by
  induction inc with
  | nil => simp
  | cons na t ih =>
    cases h : mergeProcessNew persistence ex na with
    | none =>
      rw [List.filterMap_cons_none h, List.map_cons]
      exact ih.cons _
    | some o =>
      have hkey := (mergeProcessNew_some _ _ _ _ h).1
      rw [List.filterMap_cons_some h, List.map_cons, List.map_cons, hkey]
      exact ih.cons₂ _

/-- C3 counterexample: two distinct incoming articles share an
identity key; both are added, so the merge output carries a duplicated
key. -/
theorem merge_dedup_counterexample :
    getArticleUniqueKey inArticle2 = getArticleUniqueKey inArticle ∧
      inArticle2 ≠ inArticle ∧
      ¬ ((mergeArticles emptyStorage [] [inArticle, inArticle2]).map
          getArticleUniqueKey).Nodup := by
  decide

/-- C3 (amended): for every merge invocation, the set of identity keys
of the output equals the set of identity keys of the union of existing
and incoming (hence the distinct-key counts agree); the output is
duplicate-free whenever the existing keys and the incoming keys are
each duplicate-free — but an incoming list carrying the same fresh key
twice yields two output entries for that key. -/
theorem merge_key_dedup (persistence : Storage)
    (existingArticles newArticles : List NewsArticle) :
    (((mergeArticles persistence existingArticles newArticles).map
        getArticleUniqueKey).toFinset =
      (((existingArticles ++ newArticles).map getArticleUniqueKey).toFinset)) ∧
    ((existingArticles.map getArticleUniqueKey).Nodup →
      (newArticles.map getArticleUniqueKey).Nodup →
      ((mergeArticles persistence existingArticles newArticles).map
          getArticleUniqueKey).Nodup) := by
  constructor
  · ext k
    rw [List.mem_toFinset, List.mem_toFinset, mem_mergeArticles_keys,
      List.map_append, List.mem_append]
  · intro hE hI
    unfold mergeArticles
    rw [List.map_append, List.nodup_append]
    refine ⟨List.Nodup.sublist (merge_toAdd_keys_sublist persistence _ _) hI, hE, ?_⟩
    intro k hkAdd hkEx
    rcases List.mem_map.mp hkAdd with ⟨o, ho, hko⟩
    rcases List.mem_filterMap.mp ho with ⟨na, hna, hsome⟩
    obtain ⟨hkey, hnone⟩ := mergeProcessNew_some _ _ _ _ hsome
    rw [existingMapGet_eq_none_iff] at hnone
    rcases List.mem_map.mp hkEx with ⟨x, hx, hkx⟩
    exact hnone x hx (by rw [hkx, ← hko, hkey])

/-- Witness for the amended C3 at a concrete merge invocation with
duplicate-free inputs. -/
theorem merge_key_dedup_witness :
    (((mergeArticles emptyStorage [exArticle] [inArticle]).map
        getArticleUniqueKey).toFinset =
      ((([exArticle] ++ [inArticle]).map getArticleUniqueKey).toFinset)) ∧
    ((mergeArticles emptyStorage [exArticle] [inArticle]).map
        getArticleUniqueKey).Nodup :=
  ⟨(merge_key_dedup emptyStorage [exArticle] [inArticle]).1,
   (merge_key_dedup emptyStorage [exArticle] [inArticle]).2 (by decide) (by decide)⟩

/-! ## The state-mutation entry points on a missing id -/

theorem find?_id_eq_none (arts : List NewsArticle) (articleId : String)
    (h : ∀ a ∈ arts, a.id ≠ articleId) :
    arts.find? (fun a => a.id = articleId) = none :=
  List.find?_eq_none.mpr (fun x hx => by simpa using h x hx)

/-- C10: every state-mutation entry point (toggleBookmark,
toggleReadLater, markAsRead, toggleReadStatus, skipArticle, undoSkip)
invoked with an article id matching no article in the in-memory set
leaves both the article collection and the persisted store completely
unchanged. -/
theorem mutators_noop_on_unknown_id (articles : List NewsArticle) (persistence : Storage)
    (now : Nat) (articleId : String) (h : ∀ a ∈ articles, a.id ≠ articleId) :
    toggleBookmark articles persistence now articleId = (articles, persistence) ∧
      toggleReadLater articles persistence now articleId = (articles, persistence) ∧
      markAsRead articles persistence now articleId = (articles, persistence) ∧
      toggleReadStatus articles persistence now articleId = (articles, persistence) ∧
      skipArticle articles persistence now articleId = (articles, persistence) ∧
      undoSkip articles persistence now articleId = (articles, persistence) := by
  have hnone := find?_id_eq_none articles articleId h
  refine ⟨?_, ?_, ?_, ?_, ?_, ?_⟩ <;>
    simp [toggleBookmark, toggleReadLater, markAsRead, toggleReadStatus,
      skipArticle, undoSkip, hnone]

/-- Witness for C10 at a concrete state and an id matching nothing. -/
theorem mutators_noop_on_unknown_id_witness :
    toggleBookmark [exArticle] emptyStorage 3 "missing" = ([exArticle], emptyStorage) ∧
      toggleReadLater [exArticle] emptyStorage 3 "missing" = ([exArticle], emptyStorage) ∧
      markAsRead [exArticle] emptyStorage 3 "missing" = ([exArticle], emptyStorage) ∧
      toggleReadStatus [exArticle] emptyStorage 3 "missing" = ([exArticle], emptyStorage) ∧
      skipArticle [exArticle] emptyStorage 3 "missing" = ([exArticle], emptyStorage) ∧
      undoSkip [exArticle] emptyStorage 3 "missing" = ([exArticle], emptyStorage) :=
  mutators_noop_on_unknown_id [exArticle] emptyStorage 3 "missing" (by decide)

/-! ## The fan-in handler when every source failed -/

/-- C4 counterexample: with one previously held article and a single
errored source, the handler sets the article collection to the empty
list instead of leaving it unmodified (while it does surface a
failure message). -/
theorem load_all_failed_counterexample :
    (loadFromRSSFeedsNext [exArticle] emptyStorage SortOrder.desc
        [failedResult]).allArticles = [] ∧
      [exArticle] ≠ ([] : List NewsArticle) ∧
      (loadFromRSSFeedsNext [exArticle] emptyStorage SortOrder.desc
          [failedResult]).error ≠ none := by
  decide

/-- C4 (amended): when every enabled source returns an error, the
pipeline surfaces a failure message to the caller, but the in-memory
canonical article set is cleared (set to the empty list) rather than
left unmodified. -/
theorem load_all_failed_clears (prevArticles : List NewsArticle) (persistence : Storage)
    (ord : SortOrder) (results : List (String × RSSParseResult))
    (hall : ∀ r ∈ results, errTruthy r.2.error = true) :
    (loadFromRSSFeedsNext prevArticles persistence ord results).allArticles = [] ∧
      (loadFromRSSFeedsNext prevArticles persistence ord results).error ≠ none := by
  have hfilter : results.filter (fun r => !errTruthy r.2.error) = [] := by
    rw [List.filter_eq_nil_iff]
    intro r hr
    simp [hall r hr]
  unfold loadFromRSSFeedsNext
  rw [hfilter]
  simp

/-- Witness for the amended C4 at the concrete failing fetch. -/
theorem load_all_failed_clears_witness :
    (loadFromRSSFeedsNext [exArticle] emptyStorage SortOrder.desc
        [failedResult]).allArticles = [] ∧
      (loadFromRSSFeedsNext [exArticle] emptyStorage SortOrder.desc
          [failedResult]).error ≠ none :=
  load_all_failed_clears [exArticle] emptyStorage SortOrder.desc [failedResult] (by decide)

/-! ## The identity key formula -/

theorem char_eq_iff_toNat (a b : Char) : a = b ↔ a.toNat = b.toNat := by
  rw [Char.ext_iff, UInt32.ext_iff]
  exact Iff.rfl

theorem charOfNat_toNat (n : Nat) (h : n < 55296) : (Char.ofNat n).toNat = n := by
  have hv : n.isValidChar := Or.inl h
  simp [Char.ofNat, hv, Char.ofNatAux, Char.toNat, UInt32.toNat, BitVec.toNat_ofNatLt]

theorem jsIsWhitespace_eq_false (c : Char) (h32 : c.toNat ≠ 32) (h9 : c.toNat ≠ 9)
    (h10 : c.toNat ≠ 10) (h13 : c.toNat ≠ 13) : jsIsWhitespace c = false := by
  have n1 : ¬ (c = ' ') := fun hc => h32 (by rw [hc]; decide)
  have n2 : ¬ (c = '\t') := fun hc => h9 (by rw [hc]; decide)
  have n3 : ¬ (c = '\n') := fun hc => h10 (by rw [hc]; decide)
  have n4 : ¬ (c = '\r') := fun hc => h13 (by rw [hc]; decide)
  simp [jsIsWhitespace, n1, n2, n3, n4]

/-- Case folding maps whitespace to itself and letters to letters, so
it preserves the whitespace test. -/
theorem jsIsWhitespace_jsToLowerChar (c : Char) :
    jsIsWhitespace (jsToLowerChar c) = jsIsWhitespace c := by
  unfold jsToLowerChar
  by_cases h : 65 ≤ c.toNat ∧ c.toNat ≤ 90
  · rw [if_pos h]
    have h1 : (Char.ofNat (c.toNat + 32)).toNat = c.toNat + 32 :=
      charOfNat_toNat _ (by omega)
    rw [jsIsWhitespace_eq_false _ (by rw [h1]; omega) (by rw [h1]; omega)
        (by rw [h1]; omega) (by rw [h1]; omega),
      jsIsWhitespace_eq_false c (by omega) (by omega) (by omega) (by omega)]
  · rw [if_neg h]

/-- Trimming after lowercasing equals lowercasing after trimming. -/
theorem jsTrimList_jsToLowerList (l : List Char) :
    jsTrimList (jsToLowerList l) = jsToLowerList (jsTrimList l) := by
  have hws : (jsIsWhitespace ∘ jsToLowerChar) = jsIsWhitespace :=
    funext jsIsWhitespace_jsToLowerChar
  unfold jsTrimList jsToLowerList
  rw [List.dropWhile_map, hws, ← List.map_reverse, List.dropWhile_map, hws,
    ← List.map_reverse]

theorem getArticleUniqueKey_eq_spec (a : NewsArticle) :
    getArticleUniqueKey a = articleKeySpec a := by
  unfold getArticleUniqueKey articleKeySpec
  by_cases h : a.url ≠ ""
  · rw [if_pos h, if_pos h, jsTrimList_jsToLowerList]
  · rw [if_neg h, if_neg h, jsTrimList_jsToLowerList]

/-- Mapping the per-id update over the list preserves what the
subsequent lookup finds. -/
theorem find?_map_update (arts : List NewsArticle) (articleId : String)
    (upd : NewsArticle → NewsArticle) (hid : ∀ x, (upd x).id = x.id)
    (a : NewsArticle) (h : arts.find? (fun x => x.id = articleId) = some a) :
    (arts.map (fun x => if x.id = articleId then upd x else x)).find?
        (fun x => x.id = articleId) = some (upd a) := by
  induction arts with
  | nil => simp at h
  | cons b t ih =>
    by_cases hb : b.id = articleId
    · rw [List.find?_cons_of_pos _ (by simpa using hb)] at h
      injection h with h
      subst h
      rw [List.map_cons, if_pos hb]
      exact List.find?_cons_of_pos _ (by simp [hid, hb])
    · rw [List.find?_cons_of_neg _ (by simpa using hb)] at h
      rw [List.map_cons, if_neg hb, List.find?_cons_of_neg _ (by simpa using hb)]
      exact ih h

/-- C7: the identity key used for merge and persistence equals the
specified lowercase(trim(url)) for a nonempty url and otherwise
lowercase(trim(sourceName + "-" + title)) (the function
articleKeySpec), and every state-mutation entry point persists its
state snapshot through that same key function, applied to the updated
article. -/
theorem identity_key_spec_and_reuse (arts : List NewsArticle) (persistence : Storage)
    (now : Nat) (articleId : String) (a : NewsArticle)
    (h : arts.find? (fun x => x.id = articleId) = some a) :
    (∀ b, getArticleUniqueKey b = articleKeySpec b) ∧
      (toggleBookmark arts persistence now articleId).2 =
        (saveArticleState persistence
          (articleKeySpec { a with isBookmarked := !a.isBookmarked })
          ⟨some a.isRead, some (!a.isBookmarked), some a.isReadLater, some a.isSkipped⟩
          now).1 ∧
      (toggleReadLater arts persistence now articleId).2 =
        (saveArticleState persistence
          (articleKeySpec { a with isReadLater := !a.isReadLater })
          ⟨none, none, some (!a.isReadLater), none⟩ now).1 ∧
      (markAsRead arts persistence now articleId).2 =
        (saveArticleState persistence (articleKeySpec { a with isRead := true })
          ⟨some true, none, none, none⟩ now).1 ∧
      (toggleReadStatus arts persistence now articleId).2 =
        (saveArticleState persistence (articleKeySpec { a with isRead := !a.isRead })
          ⟨some (!a.isRead), none, none, none⟩ now).1 ∧
      (skipArticle arts persistence now articleId).2 =
        (saveArticleState persistence (articleKeySpec { a with isSkipped := true })
          ⟨none, none, none, some true⟩ now).1 ∧
      (undoSkip arts persistence now articleId).2 =
        (saveArticleState persistence (articleKeySpec { a with isSkipped := false })
          ⟨none, none, none, some false⟩ now).1 := by
  refine ⟨getArticleUniqueKey_eq_spec, ?_, ?_, ?_, ?_, ?_, ?_⟩
  · have hu := find?_map_update arts articleId
      (fun x => { x with isBookmarked := !x.isBookmarked }) (fun x => rfl) a h
    simp [toggleBookmark, h, hu, getArticleUniqueKey_eq_spec]
  · have hu := find?_map_update arts articleId
      (fun x => { x with isReadLater := !x.isReadLater }) (fun x => rfl) a h
    simp [toggleReadLater, h, hu, getArticleUniqueKey_eq_spec]
  · have hu := find?_map_update arts articleId
      (fun x => { x with isRead := true }) (fun x => rfl) a h
    simp [markAsRead, h, hu, getArticleUniqueKey_eq_spec]
  · have hu := find?_map_update arts articleId
      (fun x => { x with isRead := !x.isRead }) (fun x => rfl) a h
    simp [toggleReadStatus, h, hu, getArticleUniqueKey_eq_spec]
  · have hu := find?_map_update arts articleId
      (fun x => { x with isSkipped := true }) (fun x => rfl) a h
    simp [skipArticle, h, hu, getArticleUniqueKey_eq_spec]
  · have hu := find?_map_update arts articleId
      (fun x => { x with isSkipped := false }) (fun x => rfl) a h
    simp [undoSkip, h, hu, getArticleUniqueKey_eq_spec]

/-- Witness for C7: a concrete bookmark toggle persists through the
specified key function. -/
theorem identity_key_spec_and_reuse_witness :
    (toggleBookmark [exArticle] emptyStorage 3 "ex-1").2 =
      (saveArticleState emptyStorage
        (articleKeySpec { exArticle with isBookmarked := !exArticle.isBookmarked })
        ⟨some exArticle.isRead, some (!exArticle.isBookmarked), some exArticle.isReadLater,
         some exArticle.isSkipped⟩ 3).1 :=
  (identity_key_spec_and_reuse [exArticle] emptyStorage 3 "ex-1" exArticle (by decide)).2.1

/-! ## Pruning-cap lemmas for the state store -/

theorem objGet_eq_none (m : ArticleStatesMap) (k : ArticleKey)
    (h : ∀ p ∈ m, p.1 ≠ k) : objGet m k = none := by
  have hf : m.find? (fun p => p.1 = k) = none :=
    List.find?_eq_none.mpr (fun p hp => by simpa using h p hp)
  simp [objGet, hf]

theorem objSet_append (m : ArticleStatesMap) (k : ArticleKey) (v : ArticleState)
    (h : ∀ p ∈ m, p.1 ≠ k) : objSet m k v = m ++ [(k, v)] := by
  have ha : m.any (fun p => p.1 = k) = false := by
    rw [List.any_eq_false]
    intro p hp
    simpa using h p hp
  simp [objSet, ha]

theorem insertByLastModifiedDesc_append (p : ArticleKey × ArticleState)
    (m : ArticleStatesMap) (h : ∀ q ∈ m, ¬ q.2.lastModified < p.2.lastModified) :
    insertByLastModifiedDesc p m = m ++ [p] := by
  induction m with
  | nil => rfl
  | cons q qs ih =>
    simp only [insertByLastModifiedDesc, if_neg (h q (List.mem_cons_self q qs)),
      ih (fun r hr => h r (List.mem_cons_of_mem q hr)), List.cons_append]

/-- On a list whose write times strictly increase, the descending sort
is the reverse. -/
theorem sortByLastModifiedDesc_of_increasing (l : ArticleStatesMap)
    (h : l.Pairwise (fun p q => p.2.lastModified < q.2.lastModified)) :
    sortByLastModifiedDesc l = l.reverse := by
  induction l with
  | nil => rfl
  | cons p ps ih =>
    rw [List.pairwise_cons] at h
    obtain ⟨hp, hps⟩ := h
    simp only [sortByLastModifiedDesc]
    rw [ih hps,
      insertByLastModifiedDesc_append p ps.reverse
        (fun q hq => Nat.lt_asymm (hp q (List.mem_reverse.mp hq))),
      List.reverse_cons]

theorem pruneOldStates_of_le (m : ArticleStatesMap)
    (h : m.length ≤ MAX_STORAGE_ITEMS) : pruneOldStates m = m := by
  simp [pruneOldStates, Nat.not_lt.mpr h]

/-- Pruning a strictly increasing map one over the cap removes exactly
its oldest (first) entry. -/
theorem pruneOldStates_eq_drop_one (l : ArticleStatesMap)
    (hlen : l.length = MAX_STORAGE_ITEMS + 1)
    (hkeys : (l.map Prod.fst).Nodup)
    (hinc : l.Pairwise (fun p q => p.2.lastModified < q.2.lastModified)) :
    pruneOldStates l = l.drop 1 := by
  cases l with
  | nil => exact absurd hlen.symm (Nat.succ_ne_zero _)
  | cons a t =>
    have hlent : t.length = MAX_STORAGE_ITEMS := by
      rw [List.length_cons] at hlen
      omega
    rw [List.map_cons, List.nodup_cons] at hkeys
    have hsort : sortByLastModifiedDesc (a :: t) = t.reverse ++ [a] := by
      rw [sortByLastModifiedDesc_of_increasing _ hinc, List.reverse_cons]
    have htake : (t.reverse ++ [a]).take MAX_STORAGE_ITEMS = t.reverse := by
      have hlr : t.reverse.length = MAX_STORAGE_ITEMS := by simp [hlent]
      rw [← hlr, List.take_left]
    have hhead : t.reverse.any (fun q => q.1 = a.1) = false := by
      rw [List.any_eq_false]
      intro q hq
      simp only [decide_eq_true_eq]
      intro hq1
      exact hkeys.1 (List.mem_map.mpr ⟨q, List.mem_reverse.mp hq, hq1⟩)
    have hcond : MAX_STORAGE_ITEMS < (a :: t).length := by
      rw [hlen]
      omega
    simp only [pruneOldStates, if_pos hcond, hsort, htake]
    rw [List.filter_cons]
    simp only [hhead, Bool.false_eq_true, if_false, List.drop_one, List.tail_cons]
    rw [List.filter_eq_self]
    intro p hp
    exact List.any_eq_true.mpr ⟨p, List.mem_reverse.mpr hp, by simp⟩

/-- A fresh-key save on a quota-free medium appends the patched entry
and prunes. -/
theorem saveArticleState_fresh (st : Storage) (k : ArticleKey)
    (patch : ArticleStatePatch) (now : Nat)
    (hpend : st.pending = []) (hfresh : ∀ p ∈ st.stored, p.1 ≠ k) :
    (saveArticleState st k patch now).1 =
      ⟨pruneOldStates (st.stored ++ [mkSavedEntry (k, patch, now)]), []⟩ := by
  have h1 : objGet st.stored k = none := objGet_eq_none _ _ hfresh
  have h2 := objSet_append st.stored k
    ⟨patch.isRead.getD false, patch.isBookmarked.getD false,
     patch.isReadLater.getD false, patch.isSkipped.getD false, now⟩ hfresh
  simp only [saveArticleState, getAllStates, h1, Option.getD_none, h2, saveAllStates,
    hpend, saveAllStatesGo, mkSavedEntry]

/-- Invariant of sequential fresh-key writes on a quota-free store:
after any run of writes with distinct keys and strictly increasing
times, the persisted map is exactly the window of the last (at most)
`MAX_STORAGE_ITEMS` writes, in write order. -/
theorem runSaves_window (ws : List (ArticleKey × ArticleStatePatch × Nat))
    (hkeys : (ws.map (fun w => w.1)).Nodup)
    (htimes : ws.Pairwise (fun u v => u.2.2 < v.2.2)) :
    runSaves emptyStorage ws =
      ⟨(ws.drop (ws.length - MAX_STORAGE_ITEMS)).map mkSavedEntry, []⟩ := by
  have hM : MAX_STORAGE_ITEMS = 1000 := rfl
  induction ws using List.reverseRecOn with
  | nil => rfl
  | append_singleton ws w ih =>
    rw [List.map_append, List.nodup_append] at hkeys
    obtain ⟨hkws, _, hdisj⟩ := hkeys
    have hwfresh : w.1 ∉ ws.map (fun w => w.1) := by
      intro hmem
      exact hdisj hmem (by simp)
    rw [List.pairwise_append] at htimes
    obtain ⟨htws, _, hcross⟩ := htimes
    have hlast : ∀ u ∈ ws, u.2.2 < w.2.2 := fun u hu => hcross u hu w (by simp)
    have hstep : runSaves emptyStorage (ws ++ [w]) =
        (saveArticleState (runSaves emptyStorage ws) w.1 w.2.1 w.2.2).1 := by
      simp [runSaves, List.foldl_append]
    rw [hstep, ih hkws htws]
    have hfresh : ∀ p ∈ (ws.drop (ws.length - MAX_STORAGE_ITEMS)).map mkSavedEntry,
        p.1 ≠ w.1 := by
      intro p hp hpk
      rcases List.mem_map.mp hp with ⟨u, hu, hpu⟩
      have hu2 : u ∈ ws := (List.drop_sublist _ _).subset hu
      have hu1 : u.1 = w.1 := by rw [← hpu] at hpk; exact hpk
      exact hwfresh (List.mem_map.mpr ⟨u, hu2, hu1⟩)
    rw [saveArticleState_fresh ⟨(ws.drop (ws.length - MAX_STORAGE_ITEMS)).map mkSavedEntry, []⟩
      w.1 w.2.1 w.2.2 rfl hfresh]
    have happ : (ws.drop (ws.length - MAX_STORAGE_ITEMS)).map mkSavedEntry
        ++ [mkSavedEntry w] =
        ((ws.drop (ws.length - MAX_STORAGE_ITEMS)) ++ [w]).map mkSavedEntry := by
      rw [List.map_append]
      rfl
    rw [happ]
    by_cases hcase : ws.length < MAX_STORAGE_ITEMS
    · have h0 : ws.length - MAX_STORAGE_ITEMS = 0 := by omega
      have h1 : (ws ++ [w]).length - MAX_STORAGE_ITEMS = 0 := by
        rw [List.length_append]
        simp
        omega
      have hle : (((ws.drop (ws.length - MAX_STORAGE_ITEMS)) ++ [w]).map
          mkSavedEntry).length ≤ MAX_STORAGE_ITEMS := by
        rw [List.length_map, List.length_append, List.length_drop]
        simp
        omega
      rw [pruneOldStates_of_le _ hle, h0, h1, List.drop_zero, List.drop_zero]
    · have hge : MAX_STORAGE_ITEMS ≤ ws.length := Nat.le_of_not_lt hcase
      have hdlen : (ws.drop (ws.length - MAX_STORAGE_ITEMS)).length =
          MAX_STORAGE_ITEMS := by
        rw [List.length_drop]
        omega
      have hsubX : ((ws.drop (ws.length - MAX_STORAGE_ITEMS)) ++ [w]).Sublist
          (ws ++ [w]) :=
        List.Sublist.append (List.drop_sublist _ _) (List.Sublist.refl _)
      have hkX : ((((ws.drop (ws.length - MAX_STORAGE_ITEMS)) ++ [w]).map
          mkSavedEntry).map Prod.fst).Nodup := by
        rw [List.map_map]
        have hcomp : (Prod.fst ∘ mkSavedEntry) = (fun w => w.1) := rfl
        rw [hcomp]
        refine List.Nodup.sublist (hsubX.map _) ?_
        rw [List.map_append]
        rw [List.nodup_append]
        refine ⟨hkws, List.nodup_singleton _, ?_⟩
        intro x hx hxw
        rw [List.map_singleton, List.mem_singleton] at hxw
        subst hxw
        exact hwfresh hx
      have htX : (((ws.drop (ws.length - MAX_STORAGE_ITEMS)) ++ [w]).map
          mkSavedEntry).Pairwise (fun p q => p.2.lastModified < q.2.lastModified) := by
        rw [List.pairwise_map]
        refine List.Pairwise.sublist hsubX ?_
        rw [List.pairwise_append]
        refine ⟨htws, List.pairwise_singleton _ _, ?_⟩
        intro a ha b hb
        rw [List.mem_singleton] at hb
        subst hb
        exact hlast a ha
      have hlenX : ((((ws.drop (ws.length - MAX_STORAGE_ITEMS)) ++ [w]).map
          mkSavedEntry).length) = MAX_STORAGE_ITEMS + 1 := by
        rw [List.length_map, List.length_append, hdlen]
        rfl
      rw [pruneOldStates_eq_drop_one _ hlenX hkX htX, ← List.map_drop]
      have hidx : (ws ++ [w]).length - MAX_STORAGE_ITEMS =
          (ws.length - MAX_STORAGE_ITEMS) + 1 := by
        rw [List.length_append]
        simp
        omega
      rw [hidx]
      congr 1
      rw [List.drop_append_of_le_length (by rw [hdlen]; omega),
        List.drop_append_of_le_length (by omega),
        List.drop_drop]

/-- C5: after more than `MAX_STORAGE_ITEMS` sequential
`saveArticleState` calls with distinct keys (at strictly increasing
write times, starting from an empty quota-free store), the store holds
exactly `MAX_STORAGE_ITEMS` entries — precisely the most recently
written ones, in write order — and after every write the entry count
never exceeds `MAX_STORAGE_ITEMS`. -/
theorem saveArticleState_pruning_cap (ws : List (ArticleKey × ArticleStatePatch × Nat))
    (hkeys : (ws.map (fun w => w.1)).Nodup)
    (htimes : ws.Pairwise (fun u v => u.2.2 < v.2.2))
    (hN : MAX_STORAGE_ITEMS < ws.length) :
    (runSaves emptyStorage ws).stored =
        (ws.drop (ws.length - MAX_STORAGE_ITEMS)).map mkSavedEntry ∧
      (runSaves emptyStorage ws).stored.length = MAX_STORAGE_ITEMS ∧
      ∀ n, (runSaves emptyStorage (ws.take n)).stored.length ≤ MAX_STORAGE_ITEMS := by
  have hmain := runSaves_window ws hkeys htimes
  refine ⟨by rw [hmain], ?_, ?_⟩
  · rw [hmain]
    simp only [List.length_map, List.length_drop]
    omega
  · intro n
    have hsub : (ws.take n).Sublist ws := List.take_sublist n ws
    have h1 : ((ws.take n).map (fun w => w.1)).Nodup :=
      List.Nodup.sublist (hsub.map _) hkeys
    have h2 : (ws.take n).Pairwise (fun u v => u.2.2 < v.2.2) :=
      List.Pairwise.sublist hsub htimes
    rw [runSaves_window _ h1 h2]
    simp only [List.length_map, List.length_drop]
    omega

theorem natKeyList_injective : Function.Injective natKeyList := by
  intro m n h
  have hlen := congrArg List.length h
  simp only [natKeyList, List.length_replicate] at hlen
  omega

/-- Witness for C5: the concrete sequence of `MAX_STORAGE_ITEMS + 1`
writes with distinct keys and increasing times. -/
theorem saveArticleState_pruning_cap_witness :
    (runSaves emptyStorage pruningWitnessWrites).stored =
        (pruningWitnessWrites.drop
          (pruningWitnessWrites.length - MAX_STORAGE_ITEMS)).map mkSavedEntry ∧
      (runSaves emptyStorage pruningWitnessWrites).stored.length = MAX_STORAGE_ITEMS ∧
      ∀ n, (runSaves emptyStorage (pruningWitnessWrites.take n)).stored.length ≤
        MAX_STORAGE_ITEMS :=
  saveArticleState_pruning_cap pruningWitnessWrites
    (by
      have h1 : pruningWitnessWrites.map (fun w => w.1) =
          (List.range (MAX_STORAGE_ITEMS + 1)).map natKeyList := by
        simp [pruningWitnessWrites, List.map_map]
      rw [h1]
      exact List.Nodup.map natKeyList_injective (List.nodup_range _))
    (List.pairwise_map.mpr (List.pairwise_lt_range _))
    (by
      simp only [pruningWitnessWrites, List.length_map, List.length_range]
      omega)

/-! ## Quota-exceeded degradation -/

/-- C6 counterexample: with an empty persisted store, two consecutive
quota rejections and the schedule then succeeding, a single
saveArticleState write makes three setItem attempts (the retry is
repeated, not attempted exactly once), and the final persisted store
is empty — the entry being written is dropped even though the last
retry succeeded, because the halved set is re-read from storage and
never re-includes it. -/
theorem quota_retry_counterexample :
    (saveArticleState ⟨[], [false, false]⟩ ['k'] patchTrue 7).2 = 3 ∧
      (saveArticleState ⟨[], [false, false]⟩ ['k'] patchTrue 7).1.stored = [] := by
  decide

/-- C6 (amended): a quota-rejected write falls back to re-reading the
persisted entries and keeping only the most recent
`MAX_STORAGE_ITEMS / 2` of those — the entry being written is not
re-included — and retries; the halve-and-retry repeats on every
further quota rejection (rather than exactly once), so under a run of
f consecutive rejections followed by acceptance the store makes f + 1
attempts, persists the halved old set (the new write is dropped when
f > 0), and never throws. -/
theorem saveAllStates_quota_halving (data : ArticleStatesMap) (f : Nat)
    (states : ArticleStatesMap) :
    saveAllStates ⟨data, List.replicate f false⟩ states =
      (⟨if f = 0 then states
        else (sortByLastModifiedDesc data).take (MAX_STORAGE_ITEMS / 2), []⟩,
       f + 1) := by
  induction f generalizing states with
  | zero => rfl
  | succ n ih =>
    simp only [saveAllStates, List.replicate_succ, saveAllStatesGo, getAllStates] at *
    rw [ih]
    cases n with
    | zero => rfl
    | succ m => rfl

/-! ## Parser lemmas -/

theorem parseRSSItem_isSome (env : FeedEnv) (src : String) (idx : Nat) (item : RSSItem) :
    (parseRSSItem env src idx item).isSome = rssItemIncluded item := by
  unfold parseRSSItem rssItemIncluded
  by_cases h1 : item.title = ""
  · simp [h1]
  · by_cases h2 : item.link = ""
    · simp [h1, h2]
    · simp [h1, h2]

theorem parseAtomEntry_isSome (env : FeedEnv) (src : String) (idx : Nat)
    (entry : AtomEntry) :
    (parseAtomEntry env src idx entry).isSome = atomEntryIncluded entry := by
  unfold parseAtomEntry atomEntryIncluded
  by_cases h1 : entry.title = ""
  · simp [h1]
  · by_cases h2 : atomEntryLink entry = ""
    · simp [h1, h2]
    · simp [h1, h2]

theorem parseRSSItem_stripId_idx (env : FeedEnv) (src : String) (i j : Nat)
    (item : RSSItem) :
    (parseRSSItem env src i item).map stripId =
      (parseRSSItem env src j item).map stripId := by
  by_cases hI : item.title ≠ "" ∧ item.link ≠ ""
  · simp [parseRSSItem, hI, stripId]
  · simp [parseRSSItem, hI]

theorem parseAtomEntry_stripId_idx (env : FeedEnv) (src : String) (i j : Nat)
    (entry : AtomEntry) :
    (parseAtomEntry env src i entry).map stripId =
      (parseAtomEntry env src j entry).map stripId := by
  by_cases hI : entry.title ≠ "" ∧ atomEntryLink entry ≠ ""
  · simp [parseAtomEntry, hI, stripId]
  · simp [parseAtomEntry, hI]

theorem parseRSSItemsFrom_cons_some (env : FeedEnv) (src : String) (i : Nat)
    (item : RSSItem) (rest : List RSSItem) (a : NewsArticle)
    (h : parseRSSItem env src i item = some a) :
    parseRSSItemsFrom env src i (item :: rest) =
      a :: parseRSSItemsFrom env src (i + 1) rest := by
  simp [parseRSSItemsFrom, h]

theorem parseRSSItemsFrom_cons_none (env : FeedEnv) (src : String) (i : Nat)
    (item : RSSItem) (rest : List RSSItem)
    (h : parseRSSItem env src i item = none) :
    parseRSSItemsFrom env src i (item :: rest) =
      parseRSSItemsFrom env src (i + 1) rest := by
  simp [parseRSSItemsFrom, h]

theorem parseAtomEntriesFrom_cons_some (env : FeedEnv) (src : String) (i : Nat)
    (entry : AtomEntry) (rest : List AtomEntry) (a : NewsArticle)
    (h : parseAtomEntry env src i entry = some a) :
    parseAtomEntriesFrom env src i (entry :: rest) =
      a :: parseAtomEntriesFrom env src (i + 1) rest := by
  simp [parseAtomEntriesFrom, h]

theorem parseAtomEntriesFrom_cons_none (env : FeedEnv) (src : String) (i : Nat)
    (entry : AtomEntry) (rest : List AtomEntry)
    (h : parseAtomEntry env src i entry = none) :
    parseAtomEntriesFrom env src i (entry :: rest) =
      parseAtomEntriesFrom env src (i + 1) rest := by
  simp [parseAtomEntriesFrom, h]

theorem parseRSSItemsFrom_stripId_idx (env : FeedEnv) (src : String)
    (items : List RSSItem) : ∀ i j : Nat,
    (parseRSSItemsFrom env src i items).map stripId =
      (parseRSSItemsFrom env src j items).map stripId := by
  induction items with
  | nil => intro i j; rfl
  | cons item rest ih =>
    intro i j
    have hij := parseRSSItem_stripId_idx env src i j item
    cases hi : parseRSSItem env src i item with
    | none =>
      rw [hi] at hij
      cases hj : parseRSSItem env src j item with
      | none =>
        rw [parseRSSItemsFrom_cons_none _ _ _ _ _ hi,
          parseRSSItemsFrom_cons_none _ _ _ _ _ hj]
        exact ih (i + 1) (j + 1)
      | some b => rw [hj] at hij; simp at hij
    | some a =>
      rw [hi] at hij
      cases hj : parseRSSItem env src j item with
      | none => rw [hj] at hij; simp at hij
      | some b =>
        rw [hj] at hij
        simp only [Option.map_some'] at hij
        injection hij with hij
        rw [parseRSSItemsFrom_cons_some _ _ _ _ _ _ hi,
          parseRSSItemsFrom_cons_some _ _ _ _ _ _ hj,
          List.map_cons, List.map_cons, hij, ih (i + 1) (j + 1)]

theorem parseAtomEntriesFrom_stripId_idx (env : FeedEnv) (src : String)
    (entries : List AtomEntry) : ∀ i j : Nat,
    (parseAtomEntriesFrom env src i entries).map stripId =
      (parseAtomEntriesFrom env src j entries).map stripId := by
  induction entries with
  | nil => intro i j; rfl
  | cons entry rest ih =>
    intro i j
    have hij := parseAtomEntry_stripId_idx env src i j entry
    cases hi : parseAtomEntry env src i entry with
    | none =>
      rw [hi] at hij
      cases hj : parseAtomEntry env src j entry with
      | none =>
        rw [parseAtomEntriesFrom_cons_none _ _ _ _ _ hi,
          parseAtomEntriesFrom_cons_none _ _ _ _ _ hj]
        exact ih (i + 1) (j + 1)
      | some b => rw [hj] at hij; simp at hij
    | some a =>
      rw [hi] at hij
      cases hj : parseAtomEntry env src j entry with
      | none => rw [hj] at hij; simp at hij
      | some b =>
        rw [hj] at hij
        simp only [Option.map_some'] at hij
        injection hij with hij
        rw [parseAtomEntriesFrom_cons_some _ _ _ _ _ _ hi,
          parseAtomEntriesFrom_cons_some _ _ _ _ _ _ hj,
          List.map_cons, List.map_cons, hij, ih (i + 1) (j + 1)]

/-- C9 counterexample: an item possessing a title but no resolvable
link is skipped by the parser, although the claim says an item with at
least one of the two is included. -/
theorem parse_skip_counterexample :
    itemTitleOnly.title ≠ "" ∧ parseRSSItem envFixed "S" 0 itemTitleOnly = none := by
  decide

/-- C9 (amended): an item or entry is silently skipped exactly when it
lacks a title or lacks a resolvable link (it is included only when it
possesses both), and skipping an item never aborts the parsing of its
sibling items: the remaining items of the feed are still produced,
identical up to the generator-assigned ephemeral id. -/
theorem parse_item_inclusion (env : FeedEnv) (src : String) :
    (∀ idx item, (parseRSSItem env src idx item).isSome = rssItemIncluded item) ∧
      (∀ idx entry, (parseAtomEntry env src idx entry).isSome = atomEntryIncluded entry) ∧
      (∀ (idx : Nat) (pre : List RSSItem) (bad : RSSItem) (post : List RSSItem),
        rssItemIncluded bad = false →
        (parseRSSItemsFrom env src idx (pre ++ bad :: post)).map stripId =
          (parseRSSItemsFrom env src idx (pre ++ post)).map stripId) ∧
      (∀ (idx : Nat) (pre : List AtomEntry) (bad : AtomEntry) (post : List AtomEntry),
        atomEntryIncluded bad = false →
        (parseAtomEntriesFrom env src idx (pre ++ bad :: post)).map stripId =
          (parseAtomEntriesFrom env src idx (pre ++ post)).map stripId) := by
  refine ⟨parseRSSItem_isSome env src, parseAtomEntry_isSome env src, ?_, ?_⟩
  · intro idx pre bad post hbad
    induction pre generalizing idx with
    | nil =>
      have hnone : parseRSSItem env src idx bad = none := by
        have hs := parseRSSItem_isSome env src idx bad
        rw [hbad] at hs
        exact Option.not_isSome_iff_eq_none.mp (by rw [hs]; exact Bool.false_ne_true)
      rw [List.nil_append, List.nil_append,
        parseRSSItemsFrom_cons_none _ _ _ _ _ hnone]
      exact parseRSSItemsFrom_stripId_idx env src post (idx + 1) idx
    | cons it pre ih =>
      rw [List.cons_append, List.cons_append]
      cases hi : parseRSSItem env src idx it with
      | none =>
        rw [parseRSSItemsFrom_cons_none _ _ _ _ _ hi,
          parseRSSItemsFrom_cons_none _ _ _ _ _ hi]
        exact ih (idx + 1)
      | some a =>
        rw [parseRSSItemsFrom_cons_some _ _ _ _ _ _ hi,
          parseRSSItemsFrom_cons_some _ _ _ _ _ _ hi,
          List.map_cons, List.map_cons, ih (idx + 1)]
  · intro idx pre bad post hbad
    induction pre generalizing idx with
    | nil =>
      have hnone : parseAtomEntry env src idx bad = none := by
        have hs := parseAtomEntry_isSome env src idx bad
        rw [hbad] at hs
        exact Option.not_isSome_iff_eq_none.mp (by rw [hs]; exact Bool.false_ne_true)
      rw [List.nil_append, List.nil_append,
        parseAtomEntriesFrom_cons_none _ _ _ _ _ hnone]
      exact parseAtomEntriesFrom_stripId_idx env src post (idx + 1) idx
    | cons it pre ih =>
      rw [List.cons_append, List.cons_append]
      cases hi : parseAtomEntry env src idx it with
      | none =>
        rw [parseAtomEntriesFrom_cons_none _ _ _ _ _ hi,
          parseAtomEntriesFrom_cons_none _ _ _ _ _ hi]
        exact ih (idx + 1)
      | some a =>
        rw [parseAtomEntriesFrom_cons_some _ _ _ _ _ _ hi,
          parseAtomEntriesFrom_cons_some _ _ _ _ _ _ hi,
          List.map_cons, List.map_cons, ih (idx + 1)]

/-- Witness for the amended C9: the title-only item is skipped, and
dropping it leaves the good sibling article intact. -/
theorem parse_item_inclusion_witness :
    rssItemIncluded itemTitleOnly = false ∧
      (parseRSSItemsFrom envFixed "S" 0 [itemGood, itemTitleOnly]).map stripId =
        (parseRSSItemsFrom envFixed "S" 0 [itemGood]).map stripId :=
  ⟨by decide,
   (parse_item_inclusion envFixed "S").2.2.1 0 [itemGood] itemTitleOnly [] (by decide)⟩

/-- C8 counterexample: an item whose date text is present but does not
parse as a date yields an Invalid Date as publishedAt, not the current
wall-clock time at parse time. -/
theorem parse_bad_date_counterexample :
    (parseRSSItem envFixed "S" 0 itemBadDate).map (fun a => a.publishedAt) =
        some none ∧
      (some envFixed.now : JSDate) ≠ (none : JSDate) ∧
      itemBadDate.pubDate ≠ "" := by
  decide

/-- C8 (amended): for every parsed item or entry, publishedAt equals
the current wall-clock time exactly when the date text (pubDate
falling back to dc:date for RSS, published falling back to updated for
Atom) is absent; when date text is present, publishedAt is new
Date(text) — the parsed value when it parses, an Invalid Date
otherwise.  The date fields never affect whether an item is included,
so an item is never rejected for a missing date. -/
theorem parse_publishedAt_default (env : FeedEnv) (src : String) (idx : Nat) :
    (∀ item a, parseRSSItem env src idx item = some a →
      a.publishedAt =
        if jsOr item.pubDate item.dcDate ≠ "" then
          env.parseDate (jsOr item.pubDate item.dcDate)
        else some env.now) ∧
      (∀ entry a, parseAtomEntry env src idx entry = some a →
        a.publishedAt =
          if jsOr entry.published entry.updated ≠ "" then
            env.parseDate (jsOr entry.published entry.updated)
          else some env.now) ∧
      (∀ item : RSSItem,
        (parseRSSItem env src idx
            { item with pubDate := "", dcDate := "" }).isSome =
          (parseRSSItem env src idx item).isSome) ∧
      (∀ entry : AtomEntry,
        (parseAtomEntry env src idx
            { entry with published := "", updated := "" }).isSome =
          (parseAtomEntry env src idx entry).isSome) := by
  refine ⟨?_, ?_, ?_, ?_⟩
  · intro item a h
    by_cases hI : item.title ≠ "" ∧ item.link ≠ ""
    · simp only [parseRSSItem, if_pos hI, Option.some_inj] at h
      rw [← h]
    · simp [parseRSSItem, hI] at h
  · intro entry a h
    by_cases hI : entry.title ≠ "" ∧ atomEntryLink entry ≠ ""
    · simp only [parseAtomEntry, if_pos hI, Option.some_inj] at h
      rw [← h]
    · simp [parseAtomEntry, hI] at h
  · intro item
    rw [parseRSSItem_isSome, parseRSSItem_isSome]
    rfl
  · intro entry
    rw [parseAtomEntry_isSome, parseAtomEntry_isSome]
    rfl

/-- Witness for the amended C8: the concrete dateless item parses to
an article whose publishedAt is the parse-time clock. -/
theorem parse_publishedAt_default_witness :
    parsedNoDate.publishedAt =
      (if jsOr itemNoDate.pubDate itemNoDate.dcDate ≠ "" then
        envFixed.parseDate (jsOr itemNoDate.pubDate itemNoDate.dcDate)
      else some envFixed.now) :=
  (parse_publishedAt_default envFixed "S" 0).1 itemNoDate parsedNoDate (by decide)
